import Mathlib

/-!
A shallow embedding, in Lean 4, of the HTTP/1.1 server sources
(request.go, response.go, router.go, handlers.go, and the server file
defining handleConnection).  Go strings and byte slices are modelled as
lists of byte values (List Nat, each element intended below 256, all
concrete inputs ASCII); Go maps are modelled as association lists with
insert-replace semantics; the network stream consumed by the parser is a
List Nat of the bytes that would arrive on the connection, and the
serializer returns the List Nat of bytes that would be written.
-/

namespace HttpSrv

/-- Byte strings are lists of byte values. -/
abbrev ByteStr : Type := List Nat

/-- Turn an ASCII Lean string into its list of byte values (code points:
identical to UTF-8 bytes on the ASCII inputs used here). -/
def bytes (s : String) : ByteStr := s.data.map Char.toNat

/-- Whitespace test used by the Go sources through strings.TrimSpace and
strings.Fields; restricted to the ASCII whitespace bytes (tab, LF, VT,
FF, CR, space), which are the only whitespace the HTTP wire data and the
claims involve. -/
def isSpaceB (c : Nat) : Bool :=
  c = 32 || c = 9 || c = 10 || c = 11 || c = 12 || c = 13

/-- strings.ToLower, restricted to ASCII: bytes 65..90 are shifted to
97..122, everything else is kept. -/
def toLowerB (s : ByteStr) : ByteStr :=
  s.map (fun c => if 65 ≤ c ∧ c ≤ 90 then c + 32 else c)

/-- Left part of strings.TrimSpace: drop leading whitespace. -/
def trimLeftB (s : ByteStr) : ByteStr := s.dropWhile isSpaceB

/-- Right part of strings.TrimSpace: drop trailing whitespace. -/
def trimRightB (s : ByteStr) : ByteStr := (s.reverse.dropWhile isSpaceB).reverse

/-- strings.TrimSpace. -/
def trimSpace (s : ByteStr) : ByteStr := trimRightB (trimLeftB s)

/-- Accumulator-style worker for strings.Fields: cur holds the bytes of
the word being read, in reverse. -/
def fieldsAux : ByteStr → ByteStr → List ByteStr
  | cur, [] => if cur = [] then [] else [cur.reverse]
  | cur, c :: rest =>
    if isSpaceB c then
      if cur = [] then fieldsAux [] rest else cur.reverse :: fieldsAux [] rest
    else fieldsAux (c :: cur) rest

/-- strings.Fields: split around runs of whitespace; no empty words. -/
def fieldsL (s : ByteStr) : List ByteStr := fieldsAux [] s

/-- Split a byte string at its first colon (byte 58), as the combination
of strings.Contains and strings.Index does in the header loop of
parseRequest: none when the string has no colon. -/
def splitFirstColon : ByteStr → Option (ByteStr × ByteStr)
  | [] => none
  | c :: rest =>
    if c = 58 then some ([], rest)
    else (splitFirstColon rest).map (fun p => (c :: p.1, p.2))

/-- Accumulator-style worker for splitting on a separator byte, keeping
empty pieces, as strings.SplitSeq does. -/
def splitOnBAux (sep : Nat) : ByteStr → ByteStr → List ByteStr
  | cur, [] => [cur.reverse]
  | cur, c :: rest =>
    if c = sep then cur.reverse :: splitOnBAux sep [] rest
    else splitOnBAux sep (c :: cur) rest

/-- strings.SplitSeq with a one-byte separator (used with a comma in
compressBody): empty input yields one empty piece, like Go. -/
def splitOnB (sep : Nat) (s : ByteStr) : List ByteStr := splitOnBAux sep [] s

/-- Decimal digits of a natural number, most significant first; worker
with accumulator, structurally recursive on a fuel argument so that it
reduces in the kernel (any fuel above the number of digits gives the
same result, and callers pass n + 1). -/
def natDecF : Nat → Nat → ByteStr → ByteStr
  | 0, _, acc => acc
  | fuel + 1, n, acc =>
    if n = 0 then acc else natDecF fuel (n / 10) ((48 + n % 10) :: acc)

/-- Decimal representation of a natural number, as fmt Sprintf of a
non-negative int produces it. -/
def natDec (n : Nat) : ByteStr := if n = 0 then [48] else natDecF (n + 1) n []

/-- Decimal representation of a Go int (fmt with the d verb): a minus
sign byte 45 in front of the digits when negative. -/
def itoaB (i : Int) : ByteStr :=
  if i < 0 then 45 :: natDec i.natAbs else natDec i.toNat

/-- Association list standing for a Go map with value type A: lookup of
an exact key, first match (keys stay unique because insertKV replaces). -/
def lookupKV {A : Type} : List (ByteStr × A) → ByteStr → Option A
  | [], _ => none
  | (k', v) :: rest, k => if k' = k then some v else lookupKV rest k

/-- Go map assignment m[k] = v: replace the value in place when the key
is present, otherwise append the new entry. -/
def insertKV {A : Type} : List (ByteStr × A) → ByteStr → A → List (ByteStr × A)
  | [], k, v => [(k, v)]
  | (k', v') :: rest, k, v =>
    if k' = k then (k, v) :: rest else (k', v') :: insertKV rest k v

/-- The header map of a request or response: Go map from string to
string. -/
abbrev HeaderMap : Type := List (ByteStr × ByteStr)

/-- The Request structure of request.go. -/
structure Request where
  method : ByteStr
  path : ByteStr
  version : ByteStr
  headers : HeaderMap
  body : ByteStr
deriving DecidableEq, Repr

/-- The Response structure of response.go. -/
structure Response where
  statusCode : Int
  statusText : ByteStr
  headers : HeaderMap
  body : ByteStr
deriving DecidableEq, Repr

/-- NewResponse of response.go: fresh empty header map. -/
def NewResponse (statusCode : Int) (statusText : ByteStr) (body : ByteStr) : Response :=
  { statusCode := statusCode, statusText := statusText, headers := [], body := body }

/-- Response.SetHeader of response.go: a plain Go map assignment, the key
is stored exactly as given (no case normalization). -/
def Response.SetHeader (r : Response) (k v : ByteStr) : Response :=
  { r with headers := insertKV r.headers k v }

/-- Modelled from the spec: Request.GetHeader is called by the sources
(response.go, handlers.go, the connection handler) but its definition is
not among the provided source files.  The spec fixes the contract: the
request header map is case-insensitive, keys being normalized to lower
case at parse time, so a lookup goes through the lowercased key. -/
def Request.GetHeader (r : Request) (k : ByteStr) : Option ByteStr :=
  lookupKV r.headers (toLowerB k)

/-- bufio Reader ReadString with delimiter LF: return the bytes up to and
including the first LF together with the rest of the stream; when the
stream ends before an LF the Go call returns an error, which parseRequest
propagates, so the model returns none. -/
def readLine : List Nat → Option (ByteStr × List Nat)
  | [] => none
  | c :: rest =>
    if c = 10 then some ([10], rest)
    else (readLine rest).map (fun p => (c :: p.1, p.2))

/-- One header line of parseRequest after TrimSpace (request.go lines
67 to 73): when the line has a colon, split at the first colon, trim both
sides, lower the key and assign into the map; otherwise leave the map
unchanged. -/
def processHeaderLine (m : HeaderMap) (t : ByteStr) : HeaderMap :=
  match splitFirstColon t with
  | none => m
  | some (k, v) => insertKV m (toLowerB (trimSpace k)) (trimSpace v)

/-- The header loop of parseRequest (request.go lines 47 to 74), worker:
the loop reads one LF-terminated line at a time (ReadString), trims it,
stops at the empty line returning the map and the rest of the stream
(positioned at the body), otherwise processes the line and continues,
and a read failure (stream exhausted before an LF) aborts the parse.
The worker walks the stream byte by byte, accumulating the current line
in reverse in cur, which computes the very same thing structurally. -/
def parseHeadersB (m : HeaderMap) (cur : ByteStr) : List Nat → Option (HeaderMap × List Nat)
  | [] => none
  | c :: rest =>
    if c = 10 then
      let t := trimSpace (cur.reverse ++ [10])
      if t = [] then some (m, rest)
      else parseHeadersB (processHeaderLine m t) [] rest
    else parseHeadersB m (c :: cur) rest

/-- The header loop of parseRequest: see parseHeadersB. -/
def parseHeaders (s : List Nat) (m : HeaderMap) : Option (HeaderMap × List Nat) :=
  parseHeadersB m [] s

/-- strconv.Atoi: an optional sign followed by at least one decimal
digit; anything else is an error (none).  Go additionally fails with a
range error beyond 64 bits where this model returns the exact integer;
every such value also fails the 10 MiB bound checked right after, so the
parser errors on it either way. -/
def atoi (s : ByteStr) : Option Int :=
  let digitsVal : ByteStr → Option Int := fun ds =>
    if ds = [] then none
    else if ds.all (fun c => 48 ≤ c ∧ c ≤ 57) then
      some (ds.foldl (fun acc c => acc * 10 + (Int.ofNat c - 48)) 0)
    else none
  match s with
  | 43 :: rest => digitsVal rest
  | 45 :: rest => (digitsVal rest).map (fun v => -v)
  | _ => digitsVal s

/-- io.ReadFull on the modelled stream: exactly n bytes or an error. -/
def readFull (s : List Nat) (n : Nat) : Option (ByteStr × List Nat) :=
  if n ≤ s.length then some (s.take n, s.drop n) else none

/-- Body phase of parseRequest (request.go lines 76 to 132): the branch
is guarded by the literal map access Headers with the mixed-case key
Content-Length, exactly as the source spells it on line 77; when the
entry exists, Atoi it, reject negative values and values over the
10 MiB cap, and for a positive value read exactly that many bytes. -/
def parseRequestBody (req : Request) (r2 : List Nat) : Option Request :=
  match lookupKV req.headers (bytes "Content-Length") with
  | none => some req
  | some cl =>
    match atoi cl with
    | none => none
    | some len =>
      if len < 0 then none
      else if len > 10 * 1024 * 1024 then none
      else if len > 0 then
        match readFull r2 len.toNat with
        | none => none
        | some (b, _) => some { req with body := b }
      else some req

/-- Header phase of parseRequest: run the header loop, build the
Request record, then the body phase. -/
def parseRequestWithTokens (m p v : ByteStr) (r1 : List Nat) : Option Request :=
  match parseHeaders r1 [] with
  | none => none
  | some (hs, r2) =>
    parseRequestBody { method := m, path := p, version := v, headers := hs, body := [] } r2

/-- Request-line phase of parseRequest: the trimmed line must split into
exactly three whitespace-separated tokens. -/
def parseRequestWithLine (rl : ByteStr) (r1 : List Nat) : Option Request :=
  match fieldsL (trimSpace rl) with
  | [m, p, v] => parseRequestWithTokens m p v r1
  | _ => none

/-- parseRequest of request.go over the modelled byte stream, phase by
phase: read the request line, parse headers, then the body branch. -/
def parseRequest (s : List Nat) : Option Request :=
  match readLine s with
  | none => none
  | some (rl, r1) => parseRequestWithLine rl r1

/-- The CRLF line terminator. -/
def crlf : ByteStr := [13, 10]

/-- One serialized header line, fmt of key colon space value CRLF. -/
def headerLineB (kv : ByteStr × ByteStr) : ByteStr :=
  kv.1 ++ [58, 32] ++ kv.2 ++ crlf

/-- writeResponse of response.go, as the byte sequence flushed onto the
connection: status line (version fixed to HTTP/1.1), each header line,
a blank line, then the body when non-empty.  The Go map iteration order
over headers is unspecified; the model writes the entries in association
list order, and no claim depends on the order. -/
def writeResponse (resp : Response) : List Nat :=
  bytes "HTTP/1.1 " ++ itoaB resp.statusCode ++ [32] ++ resp.statusText ++ crlf
    ++ (resp.headers.map headerLineB).flatten
    ++ crlf
    ++ (if resp.body.length > 0 then resp.body else [])

/-- One step of the CRC32 (IEEE) bit loop, as in hash/crc32. -/
def crc32Step (c : Nat) : Nat :=
  if c % 2 = 1 then (c / 2) ^^^ 0xEDB88320 else c / 2

/-- Eight bit steps folded over one input byte. -/
def crc32Byte (c b : Nat) : Nat :=
  crc32Step (crc32Step (crc32Step (crc32Step
    (crc32Step (crc32Step (crc32Step (crc32Step (c ^^^ b % 256))))))))

/-- CRC32 (IEEE polynomial) of a byte string. -/
def crc32 (data : ByteStr) : Nat :=
  (data.foldl crc32Byte 0xFFFFFFFF) ^^^ 0xFFFFFFFF

/-- Two bytes, little endian. -/
def le16 (n : Nat) : ByteStr := [n % 256, n / 256 % 256]

/-- Four bytes, little endian. -/
def le32 (n : Nat) : ByteStr :=
  [n % 256, n / 256 % 256, n / 65536 % 256, n / 16777216 % 256]

/-- A DEFLATE stream of stored (uncompressed) blocks holding the data:
each block is a flag byte, the length and its complement little endian,
then the raw bytes; the last block carries the final bit.  Structurally
recursive on a fuel argument (each step consumes 65535 bytes, so any
fuel above length / 65535 gives the same result). -/
def deflateStoredF : Nat → ByteStr → ByteStr
  | 0, _ => []
  | fuel + 1, data =>
    if data.length ≤ 65535 then
      if data = [] then [1, 0, 0, 255, 255]
      else [1] ++ le16 data.length ++ le16 (65535 - data.length) ++ data
    else
      [0] ++ le16 65535 ++ le16 0 ++ data.take 65535
        ++ deflateStoredF fuel (data.drop 65535)

/-- The DEFLATE stored-block stream of the data: see deflateStoredF. -/
def deflateStored (data : ByteStr) : ByteStr :=
  deflateStoredF (data.length + 1) data

/-- Models the gzip writer of the Go standard library compress/gzip
(library code, not part of this repository): the ten byte gzip header,
a DEFLATE stream of the data, then CRC32 and input length little endian.
This model emits stored DEFLATE blocks where Go emits compressed ones;
the development relies only on the transform being a deterministic
function of the input whose output is never empty, which holds of every
gzip encoder (header and trailer are always present). -/
def gzipCompress (data : ByteStr) : ByteStr :=
  [31, 139, 8, 0, 0, 0, 0, 0, 0, 255]
    ++ deflateStored data
    ++ le32 (crc32 data) ++ le32 (data.length % 4294967296)

/-- The supportedCompression set of response.go: only gzip. -/
def supportedCompression (s : ByteStr) : Bool := s = bytes "gzip"

/-- doCompression of response.go.  The Go function returns an error, but
on the gzip branch it only writes into an in-memory bytes.Buffer, whose
Write and Close cannot fail, so the error result is always nil; the
model keeps the Except shape with the error case unreachable.  The body
is replaced by the compressed bytes and Content-Encoding is set; any
other scheme falls through the switch and returns the response
unchanged. -/
def doCompression (resp : Response) (compressType : ByteStr) : Except Unit Response :=
  if compressType = bytes "gzip" then
    .ok (Response.SetHeader { resp with body := gzipCompress resp.body }
          (bytes "Content-Encoding") (bytes "gzip"))
  else .ok resp

/-- The token loop of compressBody: trim each candidate, skip
unsupported tokens, and for a supported one attempt the transform,
returning on success and continuing with the next candidate on error
(the error branch is dead in the source for the same reason as in
doCompression, but is kept). -/
def compressGo (resp : Response) : List ByteStr → Response
  | [] => resp
  | ct :: rest =>
    let t := trimSpace ct
    if supportedCompression t then
      match doCompression resp t with
      | .error _ => compressGo resp rest
      | .ok r => r
    else compressGo resp rest

/-- compressBody of response.go: trim the whole Accept-Encoding value,
split it on commas, and run the candidate loop; when no candidate is
supported the response is returned unmodified. -/
def compressBody (resp : Response) (compressType : ByteStr) : Response :=
  compressGo resp (splitOnB 44 (trimSpace compressType))

/-- The compression stage of processCommonHeaders: apply compressBody
exactly when the request carries an Accept-Encoding header. -/
def compressStage (req : Request) (resp : Response) : Response :=
  match req.GetHeader (bytes "Accept-Encoding") with
  | some v => compressBody resp v
  | none => resp

/-- The Content-Length step of processCommonHeaders (response.go lines
112 to 118): when the body is non-empty and no entry exists under the
exact key Content-Length, assign the decimal body length. -/
def setContentLength (r1 : Response) : Response :=
  if r1.body.length > 0 then
    match lookupKV r1.headers (bytes "Content-Length") with
    | none => { r1 with
        headers := insertKV r1.headers (bytes "Content-Length") (natDec r1.body.length) }
    | some _ => r1
  else r1

/-- The Connection step of processCommonHeaders (response.go lines 120
to 123): propagate Connection close from the request. -/
def propagateConnClose (req : Request) (r2 : Response) : Response :=
  match req.GetHeader (bytes "Connection") with
  | some v =>
    if v = bytes "close" then Response.SetHeader r2 (bytes "Connection") (bytes "close") else r2
  | none => r2

/-- processCommonHeaders of response.go: compression stage, then the
Content-Length and Connection steps.  The Go function returns an error
only when compressBody does, which never happens, so the model is
total. -/
def processCommonHeaders (req : Request) (resp : Response) : Response :=
  propagateConnClose req (setContentLength (compressStage req resp))

/-- Handler functions, as in router.go. -/
abbrev HandleFunc : Type := Request → Response

/-- handleNotFound of handlers.go: a 404 with nil body. -/
def handleNotFound : HandleFunc := fun _ => NewResponse 404 (bytes "Not Found") []

/-- handleRoot of handlers.go. -/
def handleRoot : HandleFunc := fun _ => NewResponse 200 (bytes "OK") []

/-- handleEcho of handlers.go: echo the path after the /echo/ route
piece (six bytes) as a text/plain body. -/
def handleEcho : HandleFunc := fun r =>
  Response.SetHeader (NewResponse 200 (bytes "OK") (r.path.drop 6))
    (bytes "Content-Type") (bytes "text/plain")

/-- The Router of router.go: a Go map of exact routes and a slice of
(route piece, handler) pairs kept sorted by descending length. -/
structure Router where
  exactRoutes : List (ByteStr × HandleFunc)
  prefixRoutes : List (ByteStr × HandleFunc)

/-- NewRouter of router.go. -/
def NewRouter : Router := { exactRoutes := [], prefixRoutes := [] }

/-- Router.RegisterExactRoute: a Go map assignment. -/
def Router.RegisterExactRoute (r : Router) (path : ByteStr) (h : HandleFunc) : Router :=
  { r with exactRoutes := insertKV r.exactRoutes path h }

/-- Insertion into a list sorted by descending key length: models the
append followed by sort.Slice on length in RegisterPrefixRoute.  Since
the slice is re-sorted after every registration it is always sorted, and
any correct sort of a sorted list with one new element places the new
element at a position like this one; Go's sort leaves the relative
order of equal lengths unspecified, and this model keeps existing
entries of equal length first. -/
def insertByLen (e : ByteStr × HandleFunc) :
    List (ByteStr × HandleFunc) → List (ByteStr × HandleFunc)
  | [] => [e]
  | x :: xs => if e.1.length ≤ x.1.length then x :: insertByLen e xs else e :: x :: xs

/-- Router.RegisterPrefixRoute of router.go: append the new pair and
keep the slice sorted by descending length. -/
def Router.RegisterPrefixRoute (r : Router) (p : ByteStr) (h : HandleFunc) : Router :=
  { r with prefixRoutes := insertByLen (p, h) r.prefixRoutes }

/-- The scan over the sorted slice in Router.Match: first entry whose
piece starts the path wins; the not-found handler when none does. -/
def matchFirst : List (ByteStr × HandleFunc) → ByteStr → HandleFunc
  | [], _ => handleNotFound
  | (p, h) :: rest, path => if p.isPrefixOf path then h else matchFirst rest path

/-- Router.Match of router.go: exact map hit first, then the sorted
scan, then handleNotFound. -/
def Router.Match (r : Router) (path : ByteStr) : HandleFunc :=
  match lookupKV r.exactRoutes path with
  | some h => h
  | none => matchFirst r.prefixRoutes path

/-- The slice invariant RegisterPrefixRoute maintains: each entry is at
least as long as the next (descending length). -/
def sortedByLenB : List (ByteStr × HandleFunc) → Bool
  | [] => true
  | [_] => true
  | x :: y :: rest => (y.1.length ≤ x.1.length) && sortedByLenB (y :: rest)

/-- Pairwise distinct route pieces (the spec expects no duplicate
registrations). -/
def keysDistinctB : List (ByteStr × HandleFunc) → Bool
  | [] => true
  | x :: rest => rest.all (fun y => x.1 ≠ y.1) && keysDistinctB rest

/-- Fixture handler for the routing example. -/
def routeHandlerA : HandleFunc := fun _ => NewResponse 200 (bytes "A") []

/-- Fixture handler for the routing example. -/
def routeHandlerB : HandleFunc := fun _ => NewResponse 200 (bytes "B") []

/-- The routing example of the spec: exact route for /a/b, route piece
/a. -/
def demoRouter : Router :=
  (NewRouter.RegisterExactRoute (bytes "/a/b") routeHandlerA).RegisterPrefixRoute
    (bytes "/a") routeHandlerB

/-- Outcome of one iteration of the request loop in handleConnection:
either the function returns (the deferred close tears the connection
down) or the loop continues and parses a further request on the same
connection. -/
inductive ConnStep where
  | closeConn : ConnStep
  | nextRequest : ConnStep
deriving DecidableEq, Repr

/-- One iteration of the for loop of handleConnection (server source,
lines 201 to 242), with the outcomes of the I/O steps supplied as
oracles: deadlinesOk is whether both SetReadDeadline and
SetWriteDeadline succeeded, parseResult is what parseRequest produced
(none for any parse error, EOF included), and writeOk is whether
writeResponse succeeded on the wire.  A failed write is only logged:
the source does not return there, so control falls through to the
Connection close check. -/
def handleConnectionStep (router : Router) (deadlinesOk : Bool)
    (parseResult : Option Request) (writeOk : Bool) : ConnStep :=
  if ¬ deadlinesOk then .closeConn
  else
    match parseResult with
    | none => .closeConn
    | some req =>
      let handler := router.Match req.path
      let resp := handler req
      let resp := processCommonHeaders req resp
      let _wire := writeResponse resp
      let _ := writeOk
      match req.GetHeader (bytes "Connection") with
      | some v => if v = bytes "close" then .closeConn else .nextRequest
      | none => .nextRequest

/-! Supporting lemmas about the byte-string utilities. -/

theorem trimRightB_eq_rdropWhile (s : ByteStr) :
    trimRightB s = s.rdropWhile isSpaceB := rfl

theorem mem_of_mem_trimLeftB {c : Nat} {s : ByteStr} (h : c ∈ trimLeftB s) : c ∈ s :=
  (List.dropWhile_suffix isSpaceB).subset h

theorem mem_of_mem_trimRightB {c : Nat} {s : ByteStr} (h : c ∈ trimRightB s) : c ∈ s := by
  rw [trimRightB_eq_rdropWhile] at h
  exact (List.rdropWhile_prefix isSpaceB s).subset h

theorem mem_of_mem_trimSpace {c : Nat} {s : ByteStr} (h : c ∈ trimSpace s) : c ∈ s :=
  mem_of_mem_trimLeftB (mem_of_mem_trimRightB h)

theorem trimRightB_append_space {s s2 : ByteStr} (h : ∀ c ∈ s2, isSpaceB c = true) :
    trimRightB (s ++ s2) = trimRightB s := by
  induction s2 using List.reverseRecOn with
  | nil => simp
  | append_singleton ys x ih =>
    rw [← List.append_assoc, trimRightB_eq_rdropWhile,
      List.rdropWhile_concat_pos _ _ _ (h x (by simp)), ← trimRightB_eq_rdropWhile]
    exact ih (fun c hc => h c (by simp [hc]))

theorem trimLeftB_eq_nil_append {s y : ByteStr} (h : trimLeftB s = []) :
    trimLeftB (s ++ y) = trimLeftB y := by
  unfold trimLeftB at *
  rw [List.dropWhile_append, h]
  simp

theorem trimLeftB_ne_nil_append {s y : ByteStr} (h : trimLeftB s ≠ []) :
    trimLeftB (s ++ y) = trimLeftB s ++ y := by
  unfold trimLeftB at *
  rw [List.dropWhile_append]
  simp only [List.isEmpty_iff]
  rw [if_neg h]

theorem trimSpace_append_space {s s2 : ByteStr} (h : ∀ c ∈ s2, isSpaceB c = true) :
    trimSpace (s ++ s2) = trimSpace s := by
  unfold trimSpace
  by_cases hs : trimLeftB s = []
  · rw [trimLeftB_eq_nil_append hs, hs]
    have : trimLeftB s2 = [] := by
      unfold trimLeftB
      exact List.dropWhile_eq_nil_iff.mpr h
    rw [this]
  · rw [trimLeftB_ne_nil_append hs, trimRightB_append_space h]

theorem trimRightB_append_ne {a w : ByteStr} (h : trimRightB w ≠ []) :
    trimRightB (a ++ w) = a ++ trimRightB w := by
  unfold trimRightB at *
  rw [List.reverse_append, List.dropWhile_append]
  simp only [List.isEmpty_iff]
  rw [if_neg (by intro hnil; exact h (by rw [hnil]; simp))]
  simp

theorem trimRightB_eq_nil_space {w : ByteStr} (h : trimRightB w = []) :
    ∀ c ∈ w, isSpaceB c = true := by
  intro c hc
  rw [trimRightB_eq_rdropWhile] at h
  exact List.rdropWhile_eq_nil_iff.mp h c hc

/-- Appending a non-whitespace byte and more bytes after a string slides
the left trim through. -/
theorem trimLeftB_append_cons {a w : ByteStr} {c : Nat} (hc : isSpaceB c = false) :
    trimLeftB (a ++ c :: w) = trimLeftB a ++ c :: w := by
  by_cases ha : trimLeftB a = []
  · rw [trimLeftB_eq_nil_append ha, ha]
    simp [trimLeftB, List.dropWhile_cons, hc]
  · exact trimLeftB_ne_nil_append ha

/-- A non-whitespace byte in the middle blocks the right trim as well. -/
theorem trimRightB_append_cons {a w : ByteStr} {c : Nat} (hc : isSpaceB c = false) :
    trimRightB (a ++ c :: w) = a ++ c :: trimRightB w := by
  by_cases hw : trimRightB w = []
  · have hsp := trimRightB_eq_nil_space hw
    have h1 : a ++ c :: w = (a ++ [c]) ++ w := by simp
    rw [h1, trimRightB_append_space hsp, trimRightB_eq_rdropWhile,
      List.rdropWhile_concat_neg _ _ _ (by simp [hc]), hw]
  · have h1 : a ++ c :: w = (a ++ [c]) ++ w := by simp
    rw [h1, trimRightB_append_ne hw]
    simp

theorem trimRightB_cons_nonspace {w : ByteStr} {c : Nat} (hc : isSpaceB c = false) :
    trimRightB (c :: w) = c :: trimRightB w := by
  have := trimRightB_append_cons (a := []) (w := w) hc
  simpa using this

theorem trimLeftB_cons_space {w : ByteStr} {c : Nat} (hc : isSpaceB c = true) :
    trimLeftB (c :: w) = trimLeftB w := by
  simp [trimLeftB, List.dropWhile_cons, hc]

theorem trimLeftB_cons_nonspace {w : ByteStr} {c : Nat} (hc : isSpaceB c = false) :
    trimLeftB (c :: w) = c :: w := by
  simp [trimLeftB, List.dropWhile_cons, hc]

theorem trimLeftB_idem (s : ByteStr) : trimLeftB (trimLeftB s) = trimLeftB s :=
  List.dropWhile_idempotent isSpaceB s

theorem trimRightB_idem (s : ByteStr) : trimRightB (trimRightB s) = trimRightB s := by
  rw [trimRightB_eq_rdropWhile, trimRightB_eq_rdropWhile]
  exact List.rdropWhile_idempotent isSpaceB s

theorem trimRightB_eq_nil_cons {w : ByteStr} {c : Nat}
    (hc : isSpaceB c = true) (hw : trimRightB w = []) : trimRightB (c :: w) = [] := by
  rw [trimRightB_eq_rdropWhile]
  rw [List.rdropWhile_eq_nil_iff]
  intro x hx
  rcases List.mem_cons.mp hx with h | h
  · rw [h]; exact hc
  · exact trimRightB_eq_nil_space hw x h

theorem trimRightB_cons_of_ne {w : ByteStr} {c : Nat}
    (hw : trimRightB w ≠ []) :
    trimRightB (c :: w) = c :: trimRightB w := by
  have h1 : (c : Nat) :: w = [c] ++ w := rfl
  rw [h1, trimRightB_append_ne hw]
  simp

/-- The two trims commute. -/
theorem trim_comm (x : ByteStr) : trimLeftB (trimRightB x) = trimRightB (trimLeftB x) := by
  induction x with
  | nil => simp [trimLeftB, trimRightB]
  | cons c xs ih =>
    by_cases hc : isSpaceB c = true
    · rw [trimLeftB_cons_space hc, ← ih]
      by_cases hw : trimRightB xs = []
      · rw [trimRightB_eq_nil_cons hc hw, hw]
      · rw [trimRightB_cons_of_ne hw, trimLeftB_cons_space hc]
    · have hc' : isSpaceB c = false := by
        cases h : isSpaceB c
        · rfl
        · exact absurd h hc
      rw [trimRightB_cons_nonspace hc', trimLeftB_cons_nonspace hc',
        trimLeftB_cons_nonspace hc', trimRightB_cons_nonspace hc']

/-- A string equal to its own trim is equal to each one-sided trim. -/
theorem trimLeftB_of_trimSpace_eq {k : ByteStr} (h : trimSpace k = k) : trimLeftB k = k := by
  have h1 : trimLeftB k <:+ k := List.dropWhile_suffix isSpaceB
  have h2 : trimRightB (trimLeftB k) <+: trimLeftB k := by
    rw [trimRightB_eq_rdropWhile]
    exact List.rdropWhile_prefix isSpaceB (trimLeftB k)
  have hlen : (trimLeftB k).length = k.length := by
    have e1 := h1.length_le
    have e2 := h2.length_le
    have e3 : (trimRightB (trimLeftB k)).length = k.length := by
      rw [show trimRightB (trimLeftB k) = trimSpace k from rfl, h]
    omega
  exact h1.eq_of_length hlen

theorem trimRightB_of_trimSpace_eq {k : ByteStr} (h : trimSpace k = k) : trimRightB k = k := by
  have hl := trimLeftB_of_trimSpace_eq h
  calc trimRightB k = trimRightB (trimLeftB k) := by rw [hl]
    _ = k := h

theorem splitFirstColon_of_not_mem {t : ByteStr} (h : 58 ∉ t) :
    splitFirstColon t = none := by
  induction t with
  | nil => rfl
  | cons c rest ih =>
    have hc : c ≠ 58 := fun he => h (by rw [he]; exact List.mem_cons_self _ _)
    rw [splitFirstColon, if_neg hc, ih (fun hm => h (List.mem_cons_of_mem c hm))]
    rfl

theorem splitFirstColon_append {a w : ByteStr} (h : 58 ∉ a) :
    splitFirstColon (a ++ 58 :: w) = some (a, w) := by
  induction a with
  | nil => simp [splitFirstColon]
  | cons c rest ih =>
    have hc : c ≠ 58 := fun he => h (by rw [he]; exact List.mem_cons_self _ _)
    rw [List.cons_append, splitFirstColon, if_neg hc,
      ih (fun hm => h (List.mem_cons_of_mem c hm))]
    rfl

theorem lookupKV_insertKV_self {A : Type} (m : List (ByteStr × A)) (k : ByteStr) (v : A) :
    lookupKV (insertKV m k v) k = some v := by
  induction m with
  | nil => simp [insertKV, lookupKV]
  | cons kv rest ih =>
    obtain ⟨k', v'⟩ := kv
    by_cases h : k' = k
    · simp [insertKV, lookupKV, h]
    · rw [insertKV, if_neg h, lookupKV, if_neg h]
      exact ih

theorem lookupKV_insertKV_ne {A : Type} (m : List (ByteStr × A)) (k k' : ByteStr) (v : A)
    (h : k' ≠ k) : lookupKV (insertKV m k v) k' = lookupKV m k' := by
  induction m with
  | nil => simp [insertKV, lookupKV, Ne.symm h]
  | cons kv rest ih =>
    obtain ⟨k0, v0⟩ := kv
    by_cases h0 : k0 = k
    · subst h0
      simp [insertKV, lookupKV, Ne.symm h]
    · rw [insertKV, if_neg h0, lookupKV, lookupKV]
      by_cases h1 : k0 = k'
      · rw [if_pos h1, if_pos h1]
      · rw [if_neg h1, if_neg h1]
        exact ih

theorem mem_insertKV {A : Type} {m : List (ByteStr × A)} {k : ByteStr} {v : A}
    {kv : ByteStr × A} (h : kv ∈ insertKV m k v) : kv ∈ m ∨ kv = (k, v) := by
  induction m with
  | nil => simp [insertKV] at h; right; exact h
  | cons kv0 rest ih =>
    obtain ⟨k0, v0⟩ := kv0
    by_cases h0 : k0 = k
    · rw [insertKV, if_pos h0] at h
      rcases List.mem_cons.mp h with h1 | h1
      · right; exact h1
      · left; exact List.mem_cons_of_mem _ h1
    · rw [insertKV, if_neg h0] at h
      rcases List.mem_cons.mp h with h1 | h1
      · left; rw [h1]; exact List.mem_cons_self _ _
      · rcases ih h1 with h2 | h2
        · left; exact List.mem_cons_of_mem _ h2
        · right; exact h2

theorem lookupKV_eq_none_of {A : Type} {m : List (ByteStr × A)} {k : ByteStr}
    (h : ∀ kv ∈ m, kv.1 ≠ k) : lookupKV m k = none := by
  induction m with
  | nil => rfl
  | cons kv rest ih =>
    obtain ⟨k0, v0⟩ := kv
    rw [lookupKV, if_neg (h (k0, v0) (List.mem_cons_self _ _))]
    exact ih (fun kv hm => h kv (List.mem_cons_of_mem _ hm))

theorem mem_toLowerB_not_upper {c : Nat} {s : ByteStr} (h : c ∈ toLowerB s) :
    ¬(65 ≤ c ∧ c ≤ 90) := by
  unfold toLowerB at h
  rcases List.mem_map.mp h with ⟨c0, _, hc⟩
  by_cases h0 : 65 ≤ c0 ∧ c0 ≤ 90
  · rw [if_pos h0] at hc; omega
  · rw [if_neg h0] at hc; omega

/-- A key produced by toLowerB can never equal the mixed-case literal
Content-Length, whose first byte 67 is an upper-case letter. -/
theorem toLowerB_ne_contentLength (s : ByteStr) : toLowerB s ≠ bytes "Content-Length" := by
  intro h
  have h67 : (67 : Nat) ∈ toLowerB s := by
    rw [h]
    decide
  exact mem_toLowerB_not_upper h67 (by omega)

theorem natDecF_mem {c : Nat} :
    ∀ (fuel n : Nat) (acc : ByteStr), c ∈ natDecF fuel n acc →
      c ∈ acc ∨ (48 ≤ c ∧ c ≤ 57) := by
  intro fuel
  induction fuel with
  | zero => intro n acc h; left; exact h
  | succ fuel ih =>
    intro n acc h
    rw [natDecF] at h
    by_cases hn : n = 0
    · rw [if_pos hn] at h; left; exact h
    · rw [if_neg hn] at h
      rcases ih (n / 10) _ h with h1 | h1
      · rcases List.mem_cons.mp h1 with h2 | h2
        · right; omega
        · left; exact h2
      · right; exact h1

theorem natDec_mem {c n : Nat} (h : c ∈ natDec n) : 48 ≤ c ∧ c ≤ 57 := by
  unfold natDec at h
  by_cases hn : n = 0
  · rw [if_pos hn] at h
    simp at h
    omega
  · rw [if_neg hn] at h
    rcases natDecF_mem _ _ _ h with h1 | h1
    · simp at h1
    · exact h1

theorem natDecF_eq_nil {fuel n : Nat} {acc : ByteStr}
    (h : natDecF fuel n acc = []) : acc = [] := by
  induction fuel generalizing n acc with
  | zero => exact h
  | succ fuel ih =>
    rw [natDecF] at h
    by_cases hn : n = 0
    · rw [if_pos hn] at h; exact h
    · rw [if_neg hn] at h
      have := ih h
      simp at this

theorem natDec_ne_nil (n : Nat) : natDec n ≠ [] := by
  unfold natDec
  by_cases hn : n = 0
  · rw [if_pos hn]; simp
  · rw [if_neg hn]
    intro h
    rw [natDecF] at h
    rw [if_neg hn] at h
    have := natDecF_eq_nil h
    simp at this

theorem itoaB_mem {c : Nat} {i : Int} (h : c ∈ itoaB i) :
    c = 45 ∨ (48 ≤ c ∧ c ≤ 57) := by
  unfold itoaB at h
  by_cases hi : i < 0
  · rw [if_pos hi] at h
    rcases List.mem_cons.mp h with h1 | h1
    · left; exact h1
    · right; exact natDec_mem h1
  · rw [if_neg hi] at h
    right; exact natDec_mem h

theorem itoaB_ne_nil (i : Int) : itoaB i ≠ [] := by
  unfold itoaB
  by_cases hi : i < 0
  · rw [if_pos hi]; simp
  · rw [if_neg hi]; exact natDec_ne_nil _

theorem itoaB_not_space {c : Nat} {i : Int} (h : c ∈ itoaB i) : isSpaceB c = false := by
  rcases itoaB_mem h with h1 | h1 <;> simp [isSpaceB] <;> omega

theorem itoaB_not_lf {i : Int} : (10 : Nat) ∉ itoaB i := by
  intro h
  rcases itoaB_mem h with h1 | h1 <;> omega

theorem gzipCompress_ne_nil (d : ByteStr) : gzipCompress d ≠ [] := by
  simp [gzipCompress]

theorem dropWhile_eq_self_of {p : Nat → Bool} {l : ByteStr}
    (h : ∀ c ∈ l, p c = false) : l.dropWhile p = l := by
  cases l with
  | nil => rfl
  | cons c rest =>
    rw [List.dropWhile_cons, if_neg (by rw [h c (List.mem_cons_self _ _)]; simp)]

theorem trimLeftB_eq_self_of {l : ByteStr} (h : ∀ c ∈ l, isSpaceB c = false) :
    trimLeftB l = l :=
  dropWhile_eq_self_of h

theorem trimRightB_eq_self_of {l : ByteStr} (h : ∀ c ∈ l, isSpaceB c = false) :
    trimRightB l = l := by
  unfold trimRightB
  rw [dropWhile_eq_self_of (fun c hc => h c (List.mem_reverse.mp hc)), List.reverse_reverse]

theorem trimSpace_eq_self_of {l : ByteStr} (h : ∀ c ∈ l, isSpaceB c = false) :
    trimSpace l = l := by
  unfold trimSpace
  rw [trimLeftB_eq_self_of h, trimRightB_eq_self_of h]

theorem fieldsAux_nonspace {w : ByteStr} (hw : ∀ c ∈ w, isSpaceB c = false) :
    ∀ (cur s : ByteStr), fieldsAux cur (w ++ s) = fieldsAux (w.reverse ++ cur) s := by
  induction w with
  | nil => intro cur s; simp
  | cons c w' ih =>
    intro cur s
    rw [List.cons_append, fieldsAux, if_neg (by rw [hw c (List.mem_cons_self _ _)]; simp),
      ih (fun x hx => hw x (List.mem_cons_of_mem c hx)) (c :: cur) s]
    simp

theorem fieldsAux_space_cons {cur s : ByteStr} {c : Nat}
    (hc : isSpaceB c = true) (hcur : cur ≠ []) :
    fieldsAux cur (c :: s) = cur.reverse :: fieldsAux [] s := by
  rw [fieldsAux, if_pos hc, if_neg hcur]

/-- strings.Fields of the serialized status line, with the decimal code
and a one-word reason phrase, gives exactly the three tokens. -/
theorem fieldsL_statusLine {d t : ByteStr}
    (hd : ∀ c ∈ d, isSpaceB c = false) (hdne : d ≠ [])
    (ht : ∀ c ∈ t, isSpaceB c = false) (htne : t ≠ []) :
    fieldsL (bytes "HTTP/1.1" ++ 32 :: (d ++ 32 :: t)) = [bytes "HTTP/1.1", d, t] := by
  unfold fieldsL
  rw [fieldsAux_nonspace (by decide) [] (32 :: (d ++ 32 :: t)),
    List.append_nil, fieldsAux_space_cons (by decide) (by decide)]
  rw [show (bytes "HTTP/1.1").reverse.reverse = bytes "HTTP/1.1" from List.reverse_reverse _]
  rw [fieldsAux_nonspace hd [] (32 :: t), List.append_nil,
    fieldsAux_space_cons (by decide) (by simp [hdne]), List.reverse_reverse]
  rw [show t = t ++ [] from (List.append_nil t).symm,
    fieldsAux_nonspace ht [] [], List.append_nil, fieldsAux]
  rw [if_neg (by simp [htne]), List.reverse_reverse]
  simp

theorem readLine_append {x : ByteStr} (h : 10 ∉ x) (r : List Nat) :
    readLine (x ++ 10 :: r) = some (x ++ [10], r) := by
  induction x with
  | nil => simp [readLine]
  | cons c x' ih =>
    have hc : c ≠ 10 := fun he => h (by rw [he]; exact List.mem_cons_self _ _)
    rw [List.cons_append, readLine, if_neg hc, ih (fun hm => h (List.mem_cons_of_mem c hm))]
    simp

/-- Consuming one LF-terminated line in the header loop: the loop body
of parseRequest applied to the trimmed line. -/
theorem parseHeadersB_line {x : ByteStr} (h10 : 10 ∉ x) :
    ∀ (cur : ByteStr) (m : HeaderMap) (r : List Nat),
      parseHeadersB m cur (x ++ 10 :: r) =
        if trimSpace (cur.reverse ++ (x ++ [10])) = [] then some (m, r)
        else parseHeadersB (processHeaderLine m (trimSpace (cur.reverse ++ (x ++ [10])))) [] r := by
  induction x with
  | nil =>
    intro cur m r
    simp [parseHeadersB]
  | cons c x' ih =>
    intro cur m r
    have hc : c ≠ 10 := fun he => h10 (by rw [he]; exact List.mem_cons_self _ _)
    rw [List.cons_append, parseHeadersB, if_neg hc,
      ih (fun hm => h10 (List.mem_cons_of_mem c hm)) (c :: cur) m r]
    have he : (c :: cur).reverse ++ (x' ++ [10]) = cur.reverse ++ (c :: x' ++ [10]) := by
      simp
    rw [he]

theorem trimSpace_colon_line (a b : ByteStr) :
    trimSpace (a ++ 58 :: b) = trimLeftB a ++ 58 :: trimRightB b := by
  unfold trimSpace
  rw [trimLeftB_append_cons (by decide), trimRightB_append_cons (by decide)]

theorem trimSpace_trimLeftB (a : ByteStr) : trimSpace (trimLeftB a) = trimSpace a := by
  unfold trimSpace
  rw [trimLeftB_idem]

theorem trimSpace_trimRightB (b : ByteStr) : trimSpace (trimRightB b) = trimSpace b := by
  unfold trimSpace
  rw [trim_comm, trimRightB_idem]

theorem processHeaderLine_no_colon {m : HeaderMap} {t : ByteStr} (h : 58 ∉ t) :
    processHeaderLine m t = m := by
  unfold processHeaderLine
  rw [splitFirstColon_of_not_mem h]

/-- The header loop on the trim of a line with a colon: split at the
first colon, trim both parts, lower the key, assign. -/
theorem processHeaderLine_colon {m : HeaderMap} {a b : ByteStr} (ha : 58 ∉ a) :
    processHeaderLine m (trimSpace (a ++ 58 :: b)) =
      insertKV m (toLowerB (trimSpace a)) (trimSpace b) := by
  rw [trimSpace_colon_line]
  unfold processHeaderLine
  rw [splitFirstColon_append (fun hm => ha (mem_of_mem_trimLeftB hm))]
  simp only [trimSpace_trimLeftB, trimSpace_trimRightB]

theorem trimSpace_colon_ne_nil (a b : ByteStr) : trimSpace (a ++ 58 :: b) ≠ [] := by
  rw [trimSpace_colon_line]
  simp

/-- A header-section line without a colon is skipped: the map is
unchanged and parsing continues with the rest of the stream. -/
theorem parseHeaders_skip_line {line : ByteStr} {rest : List Nat} {m : HeaderMap}
    (h10 : 10 ∉ line) (h58 : 58 ∉ line) (hne : trimSpace line ≠ []) :
    parseHeaders (line ++ 10 :: rest) m = parseHeaders rest m := by
  unfold parseHeaders
  rw [parseHeadersB_line h10 [] m rest]
  simp only [List.reverse_nil, List.nil_append]
  have ht : trimSpace (line ++ [10]) = trimSpace line :=
    trimSpace_append_space (by intro c hc; simp at hc; rw [hc]; rfl)
  rw [ht, if_neg hne,
    processHeaderLine_no_colon (fun hm => h58 (mem_of_mem_trimSpace hm))]

/-- A header-section line with a colon performs exactly one assignment
into the map: first colon as separator, trimmed key and value, lowered
key. -/
theorem parseHeaders_insert_line {a b : ByteStr} {rest : List Nat} {m : HeaderMap}
    (h10a : 10 ∉ a) (h58 : 58 ∉ a) (h10b : 10 ∉ b) :
    parseHeaders ((a ++ 58 :: b) ++ 10 :: rest) m
      = parseHeaders rest (insertKV m (toLowerB (trimSpace a)) (trimSpace b)) := by
  have h10 : 10 ∉ a ++ 58 :: b := by
    intro hm
    rcases List.mem_append.mp hm with h | h
    · exact h10a h
    · rcases List.mem_cons.mp h with h | h
      · simp at h
      · exact h10b h
  unfold parseHeaders
  rw [parseHeadersB_line h10 [] m rest]
  simp only [List.reverse_nil, List.nil_append]
  have he : (a ++ 58 :: b) ++ [10] = a ++ 58 :: (b ++ [10]) := by simp
  have ht : trimSpace ((a ++ 58 :: b) ++ [10]) = trimSpace (a ++ 58 :: b) := by
    rw [he, trimSpace_colon_line, trimSpace_colon_line,
      trimRightB_append_space (s := b) (by intro c hc; simp at hc; rw [hc]; rfl)]
  rw [ht, if_neg (trimSpace_colon_ne_nil a b), processHeaderLine_colon h58]

theorem trimSpace_space_wrap {v : ByteStr} (h : trimSpace v = v) :
    trimSpace (32 :: (v ++ [13])) = v := by
  have h1 : (32 : Nat) :: (v ++ [13]) = (32 :: v) ++ [13] := by simp
  rw [h1, trimSpace_append_space (by decide)]
  unfold trimSpace
  rw [trimLeftB_cons_space (by decide), trimLeftB_of_trimSpace_eq h,
    trimRightB_of_trimSpace_eq h]

/-- Parsing a serialized header block: the loop folds one lowered-key
assignment per serialized header line and stops at the blank line, the
stream then positioned right after it. -/
theorem parseHeaders_serialized :
    ∀ (hs m : HeaderMap) (tail : List Nat),
      (∀ kv ∈ hs, trimSpace kv.1 = kv.1 ∧ trimSpace kv.2 = kv.2 ∧
        58 ∉ kv.1 ∧ 10 ∉ kv.1 ∧ 10 ∉ kv.2) →
      parseHeaders ((hs.map headerLineB).flatten ++ 13 :: 10 :: tail) m
        = some (hs.foldl (fun acc kv => insertKV acc (toLowerB kv.1) kv.2) m, tail) := by
  intro hs
  induction hs with
  | nil =>
    intro m tail _
    simp only [List.map_nil, List.flatten_nil, List.nil_append, List.foldl_nil]
    have h13 : (13 : Nat) :: 10 :: tail = [13] ++ 10 :: tail := rfl
    unfold parseHeaders
    rw [h13, parseHeadersB_line (by decide) [] m tail]
    simp only [List.reverse_nil, List.nil_append]
    rw [if_pos (by decide)]
  | cons kv hs' ih =>
    intro m tail hwf
    obtain ⟨k, v⟩ := kv
    have hk := hwf (k, v) (List.mem_cons_self _ _)
    have h10b : (10 : Nat) ∉ 32 :: (v ++ [13]) := by
      intro hm
      rcases List.mem_cons.mp hm with h | h
      · simp at h
      · rcases List.mem_append.mp h with h | h
        · exact hk.2.2.2.2 h
        · simp at h
    have hsplit :
        ((((k, v) :: hs').map headerLineB).flatten ++ 13 :: 10 :: tail)
          = (k ++ 58 :: (32 :: (v ++ [13])))
              ++ 10 :: ((hs'.map headerLineB).flatten ++ 13 :: 10 :: tail) := by
      simp [headerLineB, crlf]
    rw [hsplit, parseHeaders_insert_line hk.2.2.2.1 hk.2.2.1 h10b,
      hk.1, trimSpace_space_wrap hk.2.1, List.foldl_cons]
    exact ih _ tail (fun kv2 hm => hwf kv2 (List.mem_cons_of_mem _ hm))

theorem lookupKV_foldl_lower_cl_none :
    ∀ (hs m : HeaderMap), (∀ kv ∈ m, kv.1 ≠ bytes "Content-Length") →
      lookupKV (hs.foldl (fun acc kv => insertKV acc (toLowerB kv.1) kv.2) m)
        (bytes "Content-Length") = none := by
  intro hs
  induction hs with
  | nil => intro m hm; exact lookupKV_eq_none_of hm
  | cons kv hs' ih =>
    intro m hm
    rw [List.foldl_cons]
    apply ih
    intro kv2 hkv2
    rcases mem_insertKV hkv2 with h | h
    · exact hm kv2 h
    · rw [h]; exact toLowerB_ne_contentLength _

theorem writeResponse_empty_body (resp : Response) (hb : resp.body = []) :
    writeResponse resp =
      (bytes "HTTP/1.1 " ++ (itoaB resp.statusCode ++ (32 :: (resp.statusText ++ [13]))))
        ++ 10 :: ((resp.headers.map headerLineB).flatten ++ 13 :: 10 :: []) := by
  unfold writeResponse
  rw [hb]
  simp [crlf]

/-- Round trip of serialization and parsing, for responses with empty
body and a one-token reason phrase: the parse succeeds and reproduces
the status code as the decimal path token, the reason phrase, and the
header mapping with keys lowered (the case-insensitive comparison), and
the body stays empty. -/
theorem roundTrip_empty_body (resp : Response)
    (hb : resp.body = [])
    (htne : resp.statusText ≠ [])
    (hst : ∀ c ∈ resp.statusText, isSpaceB c = false)
    (hwf : ∀ kv ∈ resp.headers, trimSpace kv.1 = kv.1 ∧ trimSpace kv.2 = kv.2 ∧
      58 ∉ kv.1 ∧ 10 ∉ kv.1 ∧ 10 ∉ kv.2) :
    parseRequest (writeResponse resp) =
      some { method := bytes "HTTP/1.1", path := itoaB resp.statusCode,
             version := resp.statusText,
             headers := resp.headers.foldl
               (fun acc kv => insertKV acc (toLowerB kv.1) kv.2) [],
             body := [] } := by
  have h10T : (10 : Nat) ∉ resp.statusText := by
    intro hm
    have h := hst 10 hm
    simp [isSpaceB] at h
  have h10X : (10 : Nat) ∉
      bytes "HTTP/1.1 " ++ (itoaB resp.statusCode ++ (32 :: (resp.statusText ++ [13]))) := by
    intro hm
    rcases List.mem_append.mp hm with h | h
    · revert h; decide
    · rcases List.mem_append.mp h with h | h
      · exact itoaB_not_lf h
      · rcases List.mem_cons.mp h with h | h
        · simp at h
        · rcases List.mem_append.mp h with h | h
          · exact h10T h
          · simp at h
  have hstep1 : parseRequest (writeResponse resp) =
      parseRequestWithLine
        ((bytes "HTTP/1.1 " ++ (itoaB resp.statusCode ++ (32 :: (resp.statusText ++ [13]))))
          ++ [10])
        ((resp.headers.map headerLineB).flatten ++ 13 :: 10 :: []) := by
    rw [writeResponse_empty_body resp hb, parseRequest, readLine_append h10X]
  have hts : trimSpace
      ((bytes "HTTP/1.1 " ++ (itoaB resp.statusCode ++ (32 :: (resp.statusText ++ [13]))))
        ++ [10])
      = bytes "HTTP/1.1" ++ 32 :: (itoaB resp.statusCode ++ 32 :: resp.statusText) := by
    have he : (bytes "HTTP/1.1 "
          ++ (itoaB resp.statusCode ++ (32 :: (resp.statusText ++ [13])))) ++ [10]
        = (bytes "HTTP/1.1" ++ 32 :: (itoaB resp.statusCode ++ 32 :: resp.statusText))
            ++ [13, 10] := by
      rw [show bytes "HTTP/1.1 " = bytes "HTTP/1.1" ++ [32] from rfl]
      simp
    rw [he, trimSpace_append_space (by decide)]
    have hTT : trimRightB resp.statusText = resp.statusText := trimRightB_eq_self_of hst
    unfold trimSpace
    rw [trimLeftB_ne_nil_append (by decide),
      show trimLeftB (bytes "HTTP/1.1") = bytes "HTTP/1.1" from by decide]
    have he2 : bytes "HTTP/1.1" ++ 32 :: (itoaB resp.statusCode ++ 32 :: resp.statusText)
        = (bytes "HTTP/1.1" ++ 32 :: (itoaB resp.statusCode ++ [32])) ++ resp.statusText := by
      simp
    rw [he2, trimRightB_append_ne (by rw [hTT]; exact htne), hTT]
  have hfields : fieldsL
      (bytes "HTTP/1.1" ++ 32 :: (itoaB resp.statusCode ++ 32 :: resp.statusText))
      = [bytes "HTTP/1.1", itoaB resp.statusCode, resp.statusText] := by
    have he : bytes "HTTP/1.1" ++ 32 :: (itoaB resp.statusCode ++ 32 :: resp.statusText)
        = bytes "HTTP/1.1" ++ 32 :: (itoaB resp.statusCode ++ 32 :: resp.statusText) := rfl
    exact fieldsL_statusLine (fun c hc => itoaB_not_space hc) (itoaB_ne_nil _) hst htne
  have hstep2 : parseRequestWithLine
      ((bytes "HTTP/1.1 " ++ (itoaB resp.statusCode ++ (32 :: (resp.statusText ++ [13]))))
        ++ [10])
      ((resp.headers.map headerLineB).flatten ++ 13 :: 10 :: [])
      = parseRequestWithTokens (bytes "HTTP/1.1") (itoaB resp.statusCode) resp.statusText
          ((resp.headers.map headerLineB).flatten ++ 13 :: 10 :: []) := by
    rw [parseRequestWithLine, hts, hfields]
  have hstep3 : parseRequestWithTokens (bytes "HTTP/1.1") (itoaB resp.statusCode)
      resp.statusText ((resp.headers.map headerLineB).flatten ++ 13 :: 10 :: [])
      = parseRequestBody
          { method := bytes "HTTP/1.1", path := itoaB resp.statusCode,
            version := resp.statusText,
            headers := resp.headers.foldl
              (fun acc kv => insertKV acc (toLowerB kv.1) kv.2) [],
            body := [] } [] := by
    rw [parseRequestWithTokens, parseHeaders_serialized resp.headers [] [] hwf]
  have hstep4 : parseRequestBody
      { method := bytes "HTTP/1.1", path := itoaB resp.statusCode,
        version := resp.statusText,
        headers := resp.headers.foldl
          (fun acc kv => insertKV acc (toLowerB kv.1) kv.2) [],
        body := [] } []
      = some { method := bytes "HTTP/1.1", path := itoaB resp.statusCode,
               version := resp.statusText,
               headers := resp.headers.foldl
                 (fun acc kv => insertKV acc (toLowerB kv.1) kv.2) [],
               body := [] } := by
    rw [parseRequestBody, lookupKV_foldl_lower_cl_none resp.headers [] (by intro kv h; simp at h)]
  rw [hstep1, hstep2, hstep3, hstep4]

/-! Lemmas about the compression negotiation and common-header step. -/

theorem compressGo_of_mem {toks : List ByteStr} {resp : Response}
    (h : bytes "gzip" ∈ toks.map trimSpace) :
    compressGo resp toks =
      Response.SetHeader { resp with body := gzipCompress resp.body }
        (bytes "Content-Encoding") (bytes "gzip") := by
  induction toks with
  | nil => simp at h
  | cons ct rest ih =>
    simp only [List.map_cons, List.mem_cons] at h
    by_cases hct : trimSpace ct = bytes "gzip"
    · simp [compressGo, supportedCompression, hct, doCompression]
    · have h2 : bytes "gzip" ∈ rest.map trimSpace := by
        rcases h with h1 | h1
        · exact absurd h1.symm hct
        · exact h1
      rw [compressGo]
      simp only [supportedCompression]
      rw [if_neg (by simp [hct])]
      exact ih h2

theorem compressGo_of_not_mem {toks : List ByteStr} {resp : Response}
    (h : bytes "gzip" ∉ toks.map trimSpace) :
    compressGo resp toks = resp := by
  induction toks with
  | nil => rfl
  | cons ct rest ih =>
    simp only [List.map_cons, List.mem_cons, not_or] at h
    rw [compressGo]
    simp only [supportedCompression]
    rw [if_neg (by simp; intro he; exact h.1 he.symm)]
    exact ih h.2

theorem compressBody_of_mem {resp : Response} {v : ByteStr}
    (h : bytes "gzip" ∈ (splitOnB 44 (trimSpace v)).map trimSpace) :
    compressBody resp v =
      Response.SetHeader { resp with body := gzipCompress resp.body }
        (bytes "Content-Encoding") (bytes "gzip") :=
  compressGo_of_mem h

theorem compressBody_of_not_mem {resp : Response} {v : ByteStr}
    (h : bytes "gzip" ∉ (splitOnB 44 (trimSpace v)).map trimSpace) :
    compressBody resp v = resp :=
  compressGo_of_not_mem h

/-- The compression stage never touches the Content-Length entry. -/
theorem compressStage_cl_lookup (req : Request) (resp : Response) :
    lookupKV (compressStage req resp).headers (bytes "Content-Length")
      = lookupKV resp.headers (bytes "Content-Length") := by
  unfold compressStage
  cases hae : req.GetHeader (bytes "Accept-Encoding") with
  | none => rfl
  | some v =>
    show lookupKV (compressBody resp v).headers (bytes "Content-Length")
      = lookupKV resp.headers (bytes "Content-Length")
    by_cases h : bytes "gzip" ∈ (splitOnB 44 (trimSpace v)).map trimSpace
    · rw [compressBody_of_mem h]
      exact lookupKV_insertKV_ne _ _ _ _ (by decide)
    · rw [compressBody_of_not_mem h]

/-- When the Content-Length entry is present the step keeps the
response untouched. -/
theorem setContentLength_of_some {r1 : Response} {v0 : ByteStr}
    (h : lookupKV r1.headers (bytes "Content-Length") = some v0) :
    setContentLength r1 = r1 := by
  unfold setContentLength
  by_cases hb : r1.body.length > 0
  · rw [if_pos hb, h]
  · rw [if_neg hb]

/-- When the Content-Length entry is absent and the body non-empty, the
step assigns the decimal body length. -/
theorem setContentLength_of_none {r1 : Response}
    (hnone : lookupKV r1.headers (bytes "Content-Length") = none)
    (hbody : r1.body ≠ []) :
    setContentLength r1 = { r1 with
      headers := insertKV r1.headers (bytes "Content-Length") (natDec r1.body.length) } := by
  unfold setContentLength
  rw [if_pos (List.length_pos.mpr hbody), hnone]

/-- When the body is empty the step does nothing. -/
theorem setContentLength_of_nil {r1 : Response} (hbody : r1.body = []) :
    setContentLength r1 = r1 := by
  unfold setContentLength
  rw [if_neg (by rw [hbody]; simp)]

theorem setContentLength_body (r1 : Response) : (setContentLength r1).body = r1.body := by
  unfold setContentLength
  by_cases hb : r1.body.length > 0
  · rw [if_pos hb]
    cases lookupKV r1.headers (bytes "Content-Length") <;> rfl
  · rw [if_neg hb]

theorem propagateConnClose_body (req : Request) (r2 : Response) :
    (propagateConnClose req r2).body = r2.body := by
  unfold propagateConnClose
  cases hc : req.GetHeader (bytes "Connection") with
  | none => rfl
  | some v =>
    show (if v = bytes "close"
      then Response.SetHeader r2 (bytes "Connection") (bytes "close") else r2).body = r2.body
    by_cases hv : v = bytes "close"
    · rw [if_pos hv]; rfl
    · rw [if_neg hv]

theorem propagateConnClose_lookup (req : Request) (r2 : Response) (k : ByteStr)
    (hk : k ≠ bytes "Connection") :
    lookupKV (propagateConnClose req r2).headers k = lookupKV r2.headers k := by
  unfold propagateConnClose
  cases hc : req.GetHeader (bytes "Connection") with
  | none => rfl
  | some v =>
    show lookupKV (if v = bytes "close"
      then Response.SetHeader r2 (bytes "Connection") (bytes "close") else r2).headers k
      = lookupKV r2.headers k
    by_cases hv : v = bytes "close"
    · rw [if_pos hv]
      exact lookupKV_insertKV_ne _ _ _ _ hk
    · rw [if_neg hv]

theorem processCommonHeaders_body (req : Request) (resp : Response) :
    (processCommonHeaders req resp).body = (compressStage req resp).body := by
  unfold processCommonHeaders
  rw [propagateConnClose_body, setContentLength_body]

/-! Lemmas about the router. -/

theorem sortedByLenB_tail {x : ByteStr × HandleFunc} {xs : List (ByteStr × HandleFunc)}
    (h : sortedByLenB (x :: xs) = true) : sortedByLenB xs = true := by
  cases xs with
  | nil => rfl
  | cons y rest =>
    rw [sortedByLenB, Bool.and_eq_true] at h
    exact h.2

theorem sortedByLenB_head_max :
    ∀ {x : ByteStr × HandleFunc} {xs : List (ByteStr × HandleFunc)},
      sortedByLenB (x :: xs) = true → ∀ e ∈ x :: xs, e.1.length ≤ x.1.length := by
  intro x xs
  induction xs generalizing x with
  | nil =>
    intro _ e he
    rcases List.mem_cons.mp he with h | h
    · rw [h]
    · simp at h
  | cons y rest ih =>
    intro hs e he
    rw [sortedByLenB, Bool.and_eq_true] at hs
    obtain ⟨hyx, hs2⟩ := hs
    have hyx2 : y.1.length ≤ x.1.length := of_decide_eq_true hyx
    rcases List.mem_cons.mp he with h | h
    · rw [h]
    · have := ih hs2 e h
      omega

theorem sortedByLenB_cons_of (x : ByteStr × HandleFunc) (l : List (ByteStr × HandleFunc))
    (hl : sortedByLenB l = true) (hx : ∀ e ∈ l, e.1.length ≤ x.1.length) :
    sortedByLenB (x :: l) = true := by
  cases l with
  | nil => rfl
  | cons y rest =>
    rw [sortedByLenB, Bool.and_eq_true]
    exact ⟨decide_eq_true (hx y (List.mem_cons_self _ _)), hl⟩

theorem mem_insertByLen {e y : ByteStr × HandleFunc} :
    ∀ {l : List (ByteStr × HandleFunc)}, y ∈ insertByLen e l → y ∈ l ∨ y = e := by
  intro l
  induction l with
  | nil =>
    intro h
    rw [insertByLen] at h
    right
    simpa using h
  | cons x xs ih =>
    intro h
    rw [insertByLen] at h
    by_cases hle : e.1.length ≤ x.1.length
    · rw [if_pos hle] at h
      rcases List.mem_cons.mp h with h1 | h1
      · left; rw [h1]; exact List.mem_cons_self _ _
      · rcases ih h1 with h2 | h2
        · left; exact List.mem_cons_of_mem _ h2
        · right; exact h2
    · rw [if_neg hle] at h
      rcases List.mem_cons.mp h with h1 | h1
      · right; exact h1
      · left; exact h1

/-- Inserting into a slice sorted by descending length keeps it
sorted: the registration invariant. -/
theorem insertByLen_sorted {e : ByteStr × HandleFunc} :
    ∀ {l : List (ByteStr × HandleFunc)},
      sortedByLenB l = true → sortedByLenB (insertByLen e l) = true := by
  intro l
  induction l with
  | nil => intro _; rfl
  | cons x xs ih =>
    intro hs
    have hxs := sortedByLenB_tail hs
    have hmax := sortedByLenB_head_max hs
    rw [insertByLen]
    by_cases hle : e.1.length ≤ x.1.length
    · rw [if_pos hle]
      apply sortedByLenB_cons_of x _ (ih hxs)
      intro y hy
      rcases mem_insertByLen hy with h1 | h1
      · exact hmax y (List.mem_cons_of_mem _ h1)
      · rw [h1]; exact hle
    · rw [if_neg hle]
      apply sortedByLenB_cons_of e _ hs
      intro y hy
      rcases List.mem_cons.mp hy with h1 | h1
      · rw [h1]; omega
      · have := hmax y (List.mem_cons_of_mem _ h1)
        omega

/-- The sorted scan returns the handler of the longest matching route
piece (unique when the registered pieces are distinct). -/
theorem matchFirst_longest :
    ∀ (l : List (ByteStr × HandleFunc)) (path p : ByteStr) (h : HandleFunc),
      sortedByLenB l = true → keysDistinctB l = true →
      (p, h) ∈ l → p.isPrefixOf path = true →
      (∀ e ∈ l, e.1.isPrefixOf path = true → e.1.length ≤ p.length) →
      matchFirst l path = h := by
  intro l
  induction l with
  | nil => intro path p h _ _ hmem; simp at hmem
  | cons e0 rest ih =>
    intro path p h hs hd hmem hp hmax
    obtain ⟨p0, f0⟩ := e0
    by_cases h0 : p0.isPrefixOf path = true
    · rw [matchFirst, if_pos h0]
      have hle1 : p0.length ≤ p.length := hmax (p0, f0) (List.mem_cons_self _ _) h0
      have hle2 : p.length ≤ p0.length :=
        sortedByLenB_head_max hs (p, h) hmem
      have hpfx : p = List.take p.length path :=
        List.prefix_iff_eq_take.mp (List.isPrefixOf_iff_prefix.mp hp)
      have hpfx0 : p0 = List.take p0.length path :=
        List.prefix_iff_eq_take.mp (List.isPrefixOf_iff_prefix.mp h0)
      have hpp0 : p = p0 := by
        rw [hpfx, hpfx0]
        have : p.length = p0.length := by omega
        rw [this]
      rcases List.mem_cons.mp hmem with h1 | h1
      · exact (Prod.mk.injEq _ _ _ _ ▸ h1).2.symm
      · exfalso
        rw [keysDistinctB, Bool.and_eq_true] at hd
        have := List.all_eq_true.mp hd.1 (p, h) h1
        have hne : p0 ≠ p := of_decide_eq_true this
        exact hne hpp0.symm
    · rw [matchFirst, if_neg h0]
      have hmem2 : (p, h) ∈ rest := by
        rcases List.mem_cons.mp hmem with h1 | h1
        · exfalso
          have : p = p0 := (Prod.mk.injEq _ _ _ _ ▸ h1).1
          rw [this] at hp
          exact h0 hp
        · exact h1
      rw [keysDistinctB, Bool.and_eq_true] at hd
      exact ih path p h (sortedByLenB_tail hs) hd.2 hmem2 hp
        (fun e he hpe => hmax e (List.mem_cons_of_mem _ he) hpe)

theorem matchFirst_none :
    ∀ (l : List (ByteStr × HandleFunc)) (path : ByteStr),
      (∀ e ∈ l, e.1.isPrefixOf path = false) → matchFirst l path = handleNotFound := by
  intro l
  induction l with
  | nil => intro path _; rfl
  | cons e0 rest ih =>
    intro path hall
    obtain ⟨p0, f0⟩ := e0
    rw [matchFirst, if_neg (by rw [hall (p0, f0) (List.mem_cons_self _ _)]; simp)]
    exact ih path (fun e he => hall e (List.mem_cons_of_mem _ he))

/-! The claims. -/

/-- C1.  The claim states that a well-formed request stream carrying a
Content-Length header with value n, followed by n bytes, parses into a
request whose body holds exactly those n bytes.  The code stores header
keys lowercased (request.go line 72) but the body branch looks the map
up under the mixed-case key Content-Length (line 77), so the branch is
dead: for the concrete stream below, with Content-Length 5 followed by
the five bytes of hello, the parse succeeds, the header is present
under its lowercased key, and the body comes back empty instead of the
five bytes. -/
theorem claim1_contentLength_branch_dead :
    parseRequest (bytes "POST /submit HTTP/1.1\r\nContent-Length: 5\r\n\r\nhello")
      = some { method := bytes "POST", path := bytes "/submit",
               version := bytes "HTTP/1.1",
               headers := [(bytes "content-length", bytes "5")], body := [] } := by
  decide

/-- C2.  The claim states that a stream whose Content-Length value is
malformed, negative, or above the 10 MiB cap makes parseRequest return
an error.  Because the mixed-case lookup of request.go line 77 never
finds the lowercased header entry, none of the validations run: all
three such streams parse successfully. -/
theorem claim2_invalid_contentLength_accepted :
    (parseRequest (bytes "GET / HTTP/1.1\r\nContent-Length: abc\r\n\r\n")).isSome = true
    ∧ (parseRequest (bytes "GET / HTTP/1.1\r\nContent-Length: -5\r\n\r\n")).isSome = true
    ∧ (parseRequest (bytes "GET / HTTP/1.1\r\nContent-Length: 20971520\r\n\r\n")).isSome
        = true := by
  decide

/-- C3, counterexample.  The claim states that a failed response write
tears the connection down before any further request is parsed.  In the
loop of handleConnection the write error is only logged — control falls
through to the Connection header check — so with the write oracle
reporting failure and a request without Connection close, the iteration
does not close the connection. -/
theorem claim3_counterexample :
    handleConnectionStep NewRouter true
      (some { method := bytes "GET", path := bytes "/z", version := bytes "HTTP/1.1",
              headers := [], body := [] }) false
      ≠ ConnStep.closeConn := by
  decide

/-- C3, amended: a failed write is logged and never retried, but it
does not end the connection.  Whatever the write outcome, the iteration
consults only the request's Connection header: without Connection close
the loop goes on to parse a further request on the same connection, and
with it the connection closes. -/
theorem claim3_amended :
    (∀ (rt : Router) (req : Request) (w : Bool),
      req.GetHeader (bytes "Connection") ≠ some (bytes "close") →
      handleConnectionStep rt true (some req) w = ConnStep.nextRequest)
    ∧ (∀ (rt : Router) (req : Request) (w : Bool),
      req.GetHeader (bytes "Connection") = some (bytes "close") →
      handleConnectionStep rt true (some req) w = ConnStep.closeConn) := by
  constructor
  · intro rt req w hconn
    rw [handleConnectionStep, if_neg (by simp)]
    cases hc : req.GetHeader (bytes "Connection") with
    | none => rfl
    | some v =>
      have hv : v ≠ bytes "close" := by
        intro he
        exact hconn (by rw [hc, he])
      show (if v = bytes "close" then ConnStep.closeConn else ConnStep.nextRequest)
        = ConnStep.nextRequest
      rw [if_neg hv]
  · intro rt req w hconn
    rw [handleConnectionStep, if_neg (by simp), hconn]
    show (if bytes "close" = bytes "close" then ConnStep.closeConn else ConnStep.nextRequest)
      = ConnStep.closeConn
    rw [if_pos rfl]

theorem claim3_amended_witness :
    handleConnectionStep NewRouter true
      (some { method := bytes "GET", path := bytes "/live", version := bytes "HTTP/1.1",
              headers := [], body := [] }) false = ConnStep.nextRequest
    ∧ handleConnectionStep NewRouter true
      (some { method := bytes "GET", path := bytes "/live", version := bytes "HTTP/1.1",
              headers := [(bytes "connection", bytes "close")], body := [] }) false
      = ConnStep.closeConn :=
  ⟨claim3_amended.1 NewRouter _ false (by decide),
   claim3_amended.2 NewRouter _ false (by decide)⟩

/-- C4, counterexample.  The claim states that serializing a response
and parsing the bytes back reproduces the body.  Serializing a 200 OK
response carrying the two-byte body hi together with a correct
Content-Length header and parsing the result yields an empty body (the
parser's mixed-case Content-Length lookup misses), so the body is not
reproduced. -/
theorem claim4_counterexample :
    ((parseRequest (writeResponse (Response.SetHeader
        (NewResponse 200 (bytes "OK") (bytes "hi"))
        (bytes "Content-Length") (bytes "2")))).map Request.body = some [])
    ∧ (Response.SetHeader (NewResponse 200 (bytes "OK") (bytes "hi"))
        (bytes "Content-Length") (bytes "2")).body ≠ [] := by
  decide

/-- C4, amended: the round trip holds for the status line and the
headers but not for a non-empty body.  For a response whose reason
phrase is one whitespace-free token and whose header keys and values
are trimmed, colon-free in the key and free of line feeds, serializing
and re-parsing succeeds and reproduces the status code (as the decimal
path token), the reason phrase, and the header mapping with keys
lowercased — the case-insensitive comparison — while the body is
reproduced only when it is empty (a non-empty body is never recovered,
the parsed body being always empty). -/
theorem claim4_amended (resp : Response)
    (hb : resp.body = [])
    (htne : resp.statusText ≠ [])
    (hst : ∀ c ∈ resp.statusText, isSpaceB c = false)
    (hwf : ∀ kv ∈ resp.headers, trimSpace kv.1 = kv.1 ∧ trimSpace kv.2 = kv.2 ∧
      58 ∉ kv.1 ∧ 10 ∉ kv.1 ∧ 10 ∉ kv.2) :
    parseRequest (writeResponse resp) =
      some { method := bytes "HTTP/1.1", path := itoaB resp.statusCode,
             version := resp.statusText,
             headers := resp.headers.foldl
               (fun acc kv => insertKV acc (toLowerB kv.1) kv.2) [],
             body := [] } :=
  roundTrip_empty_body resp hb htne hst hwf

theorem claim4_amended_witness :
    parseRequest (writeResponse (Response.SetHeader (NewResponse 200 (bytes "OK") [])
        (bytes "Host") (bytes "example.com"))) =
      some { method := bytes "HTTP/1.1", path := itoaB 200, version := bytes "OK",
             headers := (Response.SetHeader (NewResponse 200 (bytes "OK") [])
               (bytes "Host") (bytes "example.com")).headers.foldl
                 (fun acc kv => insertKV acc (toLowerB kv.1) kv.2) [],
             body := [] } :=
  claim4_amended (Response.SetHeader (NewResponse 200 (bytes "OK") [])
    (bytes "Host") (bytes "example.com")) (by decide) (by decide) (by decide) (by decide)

/-- C5, counterexample.  The claim states that at serialization time
the Content-Length entry, when present, equals the body length.  A
response with the two-byte body hi and an explicitly set Content-Length
of 5 passes through processCommonHeaders untouched (the value is never
overridden), so the serialized Content-Length differs from the body
length. -/
theorem claim5_counterexample :
    (lookupKV (processCommonHeaders
        { method := bytes "GET", path := bytes "/", version := bytes "HTTP/1.1",
          headers := [], body := [] }
        (Response.SetHeader (NewResponse 200 (bytes "OK") (bytes "hi"))
          (bytes "Content-Length") (bytes "5"))).headers (bytes "Content-Length")
      = some (bytes "5"))
    ∧ (processCommonHeaders
        { method := bytes "GET", path := bytes "/", version := bytes "HTTP/1.1",
          headers := [], body := [] }
        (Response.SetHeader (NewResponse 200 (bytes "OK") (bytes "hi"))
          (bytes "Content-Length") (bytes "5"))).body.length = 2
    ∧ bytes "5" ≠ natDec 2 := by
  decide

/-- C5, amended: the pipeline never overrides an existing exact-key
Content-Length entry, and when the entry is absent after the
compression stage and the body is non-empty it adds one equal to the
decimal length of the final body; an explicitly pre-set value is kept
even when it differs from the body length, so the equality invariant
holds only in the absent case. -/
theorem claim5_amended :
    (∀ (req : Request) (resp : Response) (v0 : ByteStr),
      lookupKV resp.headers (bytes "Content-Length") = some v0 →
      lookupKV (processCommonHeaders req resp).headers (bytes "Content-Length") = some v0)
    ∧ (∀ (req : Request) (resp : Response),
      lookupKV (compressStage req resp).headers (bytes "Content-Length") = none →
      (compressStage req resp).body ≠ [] →
      lookupKV (processCommonHeaders req resp).headers (bytes "Content-Length")
        = some (natDec (processCommonHeaders req resp).body.length)) := by
  constructor
  · intro req resp v0 h
    have h1 : lookupKV (compressStage req resp).headers (bytes "Content-Length")
        = some v0 := by
      rw [compressStage_cl_lookup]
      exact h
    unfold processCommonHeaders
    rw [setContentLength_of_some h1, propagateConnClose_lookup _ _ _ (by decide)]
    exact h1
  · intro req resp hnone hbody
    rw [processCommonHeaders_body]
    unfold processCommonHeaders
    rw [setContentLength_of_none hnone hbody, propagateConnClose_lookup _ _ _ (by decide)]
    show lookupKV (insertKV (compressStage req resp).headers (bytes "Content-Length")
      (natDec (compressStage req resp).body.length)) (bytes "Content-Length")
      = some (natDec (compressStage req resp).body.length)
    exact lookupKV_insertKV_self _ _ _

theorem claim5_amended_witness :
    lookupKV (processCommonHeaders
        { method := bytes "GET", path := bytes "/", version := bytes "HTTP/1.1",
          headers := [], body := [] }
        (Response.SetHeader (NewResponse 200 (bytes "OK") (bytes "hi"))
          (bytes "Content-Length") (bytes "5"))).headers (bytes "Content-Length")
      = some (bytes "5")
    ∧ lookupKV (processCommonHeaders
        { method := bytes "GET", path := bytes "/", version := bytes "HTTP/1.1",
          headers := [], body := [] }
        (NewResponse 200 (bytes "OK") (bytes "hi"))).headers (bytes "Content-Length")
      = some (natDec (processCommonHeaders
          { method := bytes "GET", path := bytes "/", version := bytes "HTTP/1.1",
            headers := [], body := [] }
          (NewResponse 200 (bytes "OK") (bytes "hi"))).body.length) :=
  ⟨claim5_amended.1 _ _ (bytes "5") (by decide),
   claim5_amended.2 _ _ (by decide) (by decide)⟩

/-- C6, counterexample.  The claim states that the response header
mapping is case-insensitive: a key stored under one capitalization is
seen by lookups under another as the same single entry, never as two
distinct entries.  Storing content-length in lower case and running
processCommonHeaders over a response with the two-byte body hi makes
the Content-Length presence check miss and add a second entry: the map
ends with two distinct differently-capitalized entries. -/
theorem claim6_counterexample :
    (processCommonHeaders
      { method := bytes "GET", path := bytes "/", version := bytes "HTTP/1.1",
        headers := [], body := [] }
      (Response.SetHeader (NewResponse 200 (bytes "OK") (bytes "hi"))
        (bytes "content-length") (bytes "2"))).headers
    = [(bytes "content-length", bytes "2"), (bytes "Content-Length", bytes "2")]
    ∧ bytes "content-length" ≠ bytes "Content-Length" := by
  decide

/-- C6, amended: the Response header mapping is case-sensitive.
SetHeader stores the key verbatim and makes it retrievable under the
identical key only; a lookup under any other byte string — a different
capitalization included — is unaffected by the stored entry, and in
particular the Content-Length presence check of processCommonHeaders
does not observe an entry stored as content-length. -/
theorem claim6_amended :
    (∀ (resp : Response) (k v : ByteStr),
      lookupKV (Response.SetHeader resp k v).headers k = some v)
    ∧ (∀ (resp : Response) (k v k2 : ByteStr), k2 ≠ k →
      lookupKV (Response.SetHeader resp k v).headers k2 = lookupKV resp.headers k2)
    ∧ (∀ (resp : Response) (v : ByteStr),
      lookupKV (Response.SetHeader resp (bytes "content-length") v).headers
        (bytes "Content-Length") = lookupKV resp.headers (bytes "Content-Length")) :=
  ⟨fun _ k v => lookupKV_insertKV_self _ k v,
   fun _ k v k2 h => lookupKV_insertKV_ne _ k k2 v h,
   fun _ v => lookupKV_insertKV_ne _ _ _ v (by decide)⟩

theorem claim6_amended_witness :
    lookupKV (Response.SetHeader (NewResponse 200 (bytes "OK") [])
        (bytes "content-length") (bytes "2")).headers (bytes "Content-Length")
      = lookupKV (NewResponse 200 (bytes "OK") []).headers (bytes "Content-Length") :=
  claim6_amended.2.1 (NewResponse 200 (bytes "OK") [])
    (bytes "content-length") (bytes "2") (bytes "Content-Length") (by decide)

/-- C7.  Header-line handling of the parser loop: a line whose trim is
non-empty but has no colon is silently skipped; a line with a colon is
split at its first colon only, both sides are trimmed, the key is
lowercased, and the pair is assigned into the map; and an assignment
under an already present key replaces the value, so the last value
wins. -/
theorem claim7_header_line_handling :
    (∀ (m : HeaderMap) (line : ByteStr) (rest : List Nat),
      10 ∉ line → 58 ∉ line → trimSpace line ≠ [] →
      parseHeaders (line ++ 10 :: rest) m = parseHeaders rest m)
    ∧ (∀ (m : HeaderMap) (a b : ByteStr) (rest : List Nat),
      10 ∉ a → 58 ∉ a → 10 ∉ b →
      parseHeaders ((a ++ 58 :: b) ++ 10 :: rest) m
        = parseHeaders rest (insertKV m (toLowerB (trimSpace a)) (trimSpace b)))
    ∧ (∀ (m : HeaderMap) (k v1 v2 : ByteStr),
      lookupKV (insertKV (insertKV m k v1) k v2) k = some v2) :=
  ⟨fun _ _ _ h1 h2 h3 => parseHeaders_skip_line h1 h2 h3,
   fun _ _ _ _ h1 h2 h3 => parseHeaders_insert_line h1 h2 h3,
   fun m k v1 v2 => lookupKV_insertKV_self (insertKV m k v1) k v2⟩

theorem claim7_witness :
    parseHeaders (bytes "garbage line\r" ++ 10 :: (13 :: 10 :: [])) []
      = parseHeaders (13 :: 10 :: []) []
    ∧ parseHeaders ((bytes "Host " ++ 58 :: bytes " example.com \r") ++ 10 :: []) []
      = parseHeaders [] (insertKV [] (toLowerB (trimSpace (bytes "Host ")))
          (trimSpace (bytes " example.com \r")))
    ∧ lookupKV (insertKV (insertKV [] (bytes "host") (bytes "a"))
        (bytes "host") (bytes "b")) (bytes "host") = some (bytes "b") :=
  ⟨claim7_header_line_handling.1 [] (bytes "garbage line\r") (13 :: 10 :: [])
      (by decide) (by decide) (by decide),
   claim7_header_line_handling.2.1 [] (bytes "Host ") (bytes " example.com \r") []
      (by decide) (by decide) (by decide),
   claim7_header_line_handling.2.2 [] (bytes "host") (bytes "a") (bytes "b")⟩

/-- C8.  Router matching: an exact-route hit wins; otherwise, over a
prefix slice that is sorted by descending length with distinct pieces
(the invariant registration maintains, stated as the last general
conjunct), the handler of the longest registered piece that starts the
path is returned; with no match at all the not-found handler is
returned.  The concrete example: with exact route /a/b and route piece
/a registered, /a/b selects the exact handler, /a/c the piece handler,
and /z the not-found handler. -/
theorem claim8_router_match :
    (∀ (r : Router) (path : ByteStr) (h : HandleFunc),
      lookupKV r.exactRoutes path = some h → r.Match path = h)
    ∧ (∀ (r : Router) (path p : ByteStr) (h : HandleFunc),
      lookupKV r.exactRoutes path = none →
      sortedByLenB r.prefixRoutes = true → keysDistinctB r.prefixRoutes = true →
      (p, h) ∈ r.prefixRoutes → p.isPrefixOf path = true →
      (∀ e ∈ r.prefixRoutes, e.1.isPrefixOf path = true → e.1.length ≤ p.length) →
      r.Match path = h)
    ∧ (∀ (r : Router) (path : ByteStr),
      lookupKV r.exactRoutes path = none →
      (∀ e ∈ r.prefixRoutes, e.1.isPrefixOf path = false) →
      r.Match path = handleNotFound)
    ∧ (∀ (r : Router) (p : ByteStr) (h : HandleFunc),
      sortedByLenB r.prefixRoutes = true →
      sortedByLenB ((r.RegisterPrefixRoute p h).prefixRoutes) = true)
    ∧ demoRouter.Match (bytes "/a/b") = routeHandlerA
    ∧ demoRouter.Match (bytes "/a/c") = routeHandlerB
    ∧ demoRouter.Match (bytes "/z") = handleNotFound := by
  refine ⟨?_, ?_, ?_, ?_, rfl, rfl, rfl⟩
  · intro r path h he
    rw [Router.Match, he]
  · intro r path p h he hs hd hmem hp hmax
    rw [Router.Match, he]
    exact matchFirst_longest _ path p h hs hd hmem hp hmax
  · intro r path he hall
    rw [Router.Match, he]
    exact matchFirst_none _ path hall
  · intro r p h hs
    exact insertByLen_sorted hs

theorem claim8_router_match_witness :
    demoRouter.Match (bytes "/a/b") = routeHandlerA
    ∧ demoRouter.Match (bytes "/a/c") = routeHandlerB
    ∧ demoRouter.Match (bytes "/z") = handleNotFound
    ∧ sortedByLenB ((demoRouter.RegisterPrefixRoute (bytes "/a/bc")
        routeHandlerA).prefixRoutes) = true :=
  ⟨claim8_router_match.1 demoRouter (bytes "/a/b") routeHandlerA rfl,
   claim8_router_match.2.1 demoRouter (bytes "/a/c") (bytes "/a") routeHandlerB
     rfl rfl rfl (List.mem_cons_self _ _) (by decide)
     (by
       intro e he hpe
       rcases List.mem_cons.mp he with h1 | h1
       · rw [h1]
       · simp at h1),
   claim8_router_match.2.2.1 demoRouter (bytes "/z") rfl
     (by
       intro e he
       rcases List.mem_cons.mp he with h1 | h1
       · rw [h1]; decide
       · simp at h1),
   claim8_router_match.2.2.2.1 demoRouter (bytes "/a/bc") routeHandlerA rfl⟩

/-- C9.  Compression negotiation: the Accept-Encoding value is trimmed,
split on commas, and each token trimmed; when some token is gzip — the
only member of the supported set, and its in-memory transform cannot
fail — the body is replaced by its gzip compression and
Content-Encoding is set to gzip; when no token is supported the
response is returned entirely unmodified, no Content-Encoding entry
being set and no error arising; and the compression stage runs exactly
on the requests that carry an Accept-Encoding header. -/
theorem claim9_compression_negotiation :
    (∀ (resp : Response) (v : ByteStr),
      bytes "gzip" ∈ (splitOnB 44 (trimSpace v)).map trimSpace →
      compressBody resp v =
        Response.SetHeader { resp with body := gzipCompress resp.body }
          (bytes "Content-Encoding") (bytes "gzip"))
    ∧ (∀ (resp : Response) (v : ByteStr),
      bytes "gzip" ∉ (splitOnB 44 (trimSpace v)).map trimSpace →
      compressBody resp v = resp)
    ∧ (∀ (req : Request) (resp : Response) (v : ByteStr),
      req.GetHeader (bytes "Accept-Encoding") = some v →
      compressStage req resp = compressBody resp v)
    ∧ (∀ (req : Request) (resp : Response),
      req.GetHeader (bytes "Accept-Encoding") = none →
      compressStage req resp = resp) := by
  refine ⟨fun resp v h => compressBody_of_mem h,
          fun resp v h => compressBody_of_not_mem h, ?_, ?_⟩
  · intro req resp v h
    unfold compressStage
    rw [h]
  · intro req resp h
    unfold compressStage
    rw [h]

theorem claim9_compression_negotiation_witness :
    compressBody (NewResponse 200 (bytes "OK") (bytes "abc")) (bytes "invalid, gzip")
      = Response.SetHeader
          { NewResponse 200 (bytes "OK") (bytes "abc") with
            body := gzipCompress (bytes "abc") }
          (bytes "Content-Encoding") (bytes "gzip")
    ∧ compressBody (NewResponse 200 (bytes "OK") (bytes "abc")) (bytes "invalid")
      = NewResponse 200 (bytes "OK") (bytes "abc")
    ∧ compressStage
        { method := bytes "GET", path := bytes "/", version := bytes "HTTP/1.1",
          headers := [(bytes "accept-encoding", bytes "invalid, gzip")], body := [] }
        (NewResponse 200 (bytes "OK") (bytes "abc"))
      = compressBody (NewResponse 200 (bytes "OK") (bytes "abc")) (bytes "invalid, gzip")
    ∧ compressStage
        { method := bytes "GET", path := bytes "/", version := bytes "HTTP/1.1",
          headers := [], body := [] }
        (NewResponse 200 (bytes "OK") (bytes "abc"))
      = NewResponse 200 (bytes "OK") (bytes "abc") :=
  ⟨claim9_compression_negotiation.1 _ (bytes "invalid, gzip") (by decide),
   claim9_compression_negotiation.2.1 _ (bytes "invalid") (by decide),
   claim9_compression_negotiation.2.2.1 _ _ (bytes "invalid, gzip") (by decide),
   claim9_compression_negotiation.2.2.2 _ _ (by decide)⟩

/-- C10.  When a request lists gzip among its accepted encodings,
compression applies even to an empty body: the body becomes the gzip
encoding of zero bytes, which is non-empty, Content-Encoding gzip is
set, and the Content-Length step then records the compressed length —
so a response built with no body, such as the not-found handler's 404,
is sent with a non-empty gzip body. -/
theorem claim10_gzip_empty_body (req : Request) (resp : Response) (v : ByteStr)
    (hae : req.GetHeader (bytes "Accept-Encoding") = some v)
    (hmem : bytes "gzip" ∈ (splitOnB 44 (trimSpace v)).map trimSpace)
    (hb : resp.body = [])
    (hcl : lookupKV resp.headers (bytes "Content-Length") = none) :
    (processCommonHeaders req resp).body = gzipCompress []
    ∧ (processCommonHeaders req resp).body ≠ []
    ∧ lookupKV (processCommonHeaders req resp).headers (bytes "Content-Encoding")
        = some (bytes "gzip")
    ∧ lookupKV (processCommonHeaders req resp).headers (bytes "Content-Length")
        = some (natDec (gzipCompress []).length) := by
  have hcs : compressStage req resp =
      Response.SetHeader { resp with body := gzipCompress resp.body }
        (bytes "Content-Encoding") (bytes "gzip") := by
    unfold compressStage
    rw [hae]
    exact compressBody_of_mem hmem
  have hbody1 : (compressStage req resp).body = gzipCompress [] := by
    rw [hcs]
    show gzipCompress resp.body = gzipCompress []
    rw [hb]
  have hclnil : lookupKV (compressStage req resp).headers (bytes "Content-Length")
      = none := by
    rw [compressStage_cl_lookup]
    exact hcl
  have hce : lookupKV (compressStage req resp).headers (bytes "Content-Encoding")
      = some (bytes "gzip") := by
    rw [hcs]
    exact lookupKV_insertKV_self _ _ _
  have hbne : (compressStage req resp).body ≠ [] := by
    rw [hbody1]
    exact gzipCompress_ne_nil []
  refine ⟨?_, ?_, ?_, ?_⟩
  · rw [processCommonHeaders_body, hbody1]
  · rw [processCommonHeaders_body, hbody1]
    exact gzipCompress_ne_nil []
  · unfold processCommonHeaders
    rw [propagateConnClose_lookup _ _ _ (by decide),
      setContentLength_of_none hclnil hbne]
    show lookupKV (insertKV (compressStage req resp).headers (bytes "Content-Length")
      (natDec (compressStage req resp).body.length)) (bytes "Content-Encoding")
      = some (bytes "gzip")
    rw [lookupKV_insertKV_ne _ _ _ _ (by decide)]
    exact hce
  · unfold processCommonHeaders
    rw [propagateConnClose_lookup _ _ _ (by decide),
      setContentLength_of_none hclnil hbne]
    show lookupKV (insertKV (compressStage req resp).headers (bytes "Content-Length")
      (natDec (compressStage req resp).body.length)) (bytes "Content-Length")
      = some (natDec (gzipCompress []).length)
    rw [lookupKV_insertKV_self, hbody1]

theorem claim10_gzip_empty_body_witness :
    (processCommonHeaders
      { method := bytes "GET", path := bytes "/z", version := bytes "HTTP/1.1",
        headers := [(bytes "accept-encoding", bytes "gzip")], body := [] }
      (handleNotFound
        { method := bytes "GET", path := bytes "/z", version := bytes "HTTP/1.1",
          headers := [(bytes "accept-encoding", bytes "gzip")], body := [] })).body
      = gzipCompress []
    ∧ (processCommonHeaders
      { method := bytes "GET", path := bytes "/z", version := bytes "HTTP/1.1",
        headers := [(bytes "accept-encoding", bytes "gzip")], body := [] }
      (handleNotFound
        { method := bytes "GET", path := bytes "/z", version := bytes "HTTP/1.1",
          headers := [(bytes "accept-encoding", bytes "gzip")], body := [] })).body ≠ []
    ∧ lookupKV (processCommonHeaders
        { method := bytes "GET", path := bytes "/z", version := bytes "HTTP/1.1",
          headers := [(bytes "accept-encoding", bytes "gzip")], body := [] }
        (handleNotFound
          { method := bytes "GET", path := bytes "/z", version := bytes "HTTP/1.1",
            headers := [(bytes "accept-encoding", bytes "gzip")], body := [] })).headers
        (bytes "Content-Encoding") = some (bytes "gzip")
    ∧ lookupKV (processCommonHeaders
        { method := bytes "GET", path := bytes "/z", version := bytes "HTTP/1.1",
          headers := [(bytes "accept-encoding", bytes "gzip")], body := [] }
        (handleNotFound
          { method := bytes "GET", path := bytes "/z", version := bytes "HTTP/1.1",
            headers := [(bytes "accept-encoding", bytes "gzip")], body := [] })).headers
        (bytes "Content-Length") = some (natDec (gzipCompress []).length) :=
  claim10_gzip_empty_body _ _ (bytes "gzip") (by decide) (by decide) rfl rfl

end HttpSrv
